import Mathlib

/-!
Verification of the FerretDB type-code registry, value classifier, array
homogeneity analyzer and predicate evaluator, shallowly embedded from
internal/handlers/common/typecode.go and the handlers test suite.
-/

set_option maxRecDepth 4000

namespace FerretDB

/-! ## Type-code registry (typecode.go) -/

/-- Error codes used by the registry (common.ErrBadValue, common.ErrNotImplemented). -/
inductive ErrCode where
  | badValue
  | notImplemented
deriving DecidableEq, Repr

/-- An error value as produced by NewErrorMsg: an error code paired with a message. -/
structure MongoError where
  code : ErrCode
  msg : String
deriving DecidableEq, Repr

/-- String aliases appearing as stringer line comments in typecode.go. -/
def sDouble : String := "double"

def sString : String := "string"

def sObject : String := "object"

def sArray : String := "array"

def sBinData : String := "binData"

def sObjectId : String := "objectId"

def sBool : String := "bool"

def sDate : String := "date"

def sNull : String := "null"

def sRegex : String := "regex"

def sInt : String := "int"

def sTimestamp : String := "timestamp"

def sLong : String := "long"

def sDecimal : String := "decimal"

def sMinKey : String := "minKey"

def sMaxKey : String := "maxKey"

def sNumber : String := "number"

/-- The implemented and surrogate type codes, in the order they appear both in
the switch of newTypeCode and in the init loop building aliasToTypeCode:
double, string, object, array, binData, objectId, bool, date, null, regex,
int, timestamp, long, number. -/
def implementedTypeCodes : List Int :=
  [1, 2, 3, 4, 5, 7, 8, 9, 10, 11, 16, 17, 18, -128]

/-- The recognized but not implemented codes: decimal, minKey, maxKey. -/
def unimplementedTypeCodes : List Int := [19, -1, 127]

/-- typeCode.String, generated by stringer -linecomment: each declared constant
maps to its line comment; any other value prints as typeCode(n). -/
def typeCodeString (c : Int) : String :=
  if c = 1 then sDouble
  else if c = 2 then sString
  else if c = 3 then sObject
  else if c = 4 then sArray
  else if c = 5 then sBinData
  else if c = 7 then sObjectId
  else if c = 8 then sBool
  else if c = 9 then sDate
  else if c = 10 then sNull
  else if c = 11 then sRegex
  else if c = 16 then sInt
  else if c = 17 then sTimestamp
  else if c = 18 then sLong
  else if c = 19 then sDecimal
  else if c = -1 then sMinKey
  else if c = 127 then sMaxKey
  else if c = -128 then sNumber
  else "typeCode(" ++ toString c ++ ")"

/-- newTypeCode: returns (code, nil) for an implemented or surrogate code,
(0, NotImplemented error) for decimal/minKey/maxKey, and (0, BadValue error)
otherwise, mirroring the Go switch. The Go pair (typeCode, error) is modelled
as Int × Option MongoError. -/
def newTypeCode (code : Int) : Int × Option MongoError :=
  if code ∈ implementedTypeCodes then
    (code, none)
  else if code ∈ unimplementedTypeCodes then
    (0, some ⟨ErrCode.notImplemented, "Type code " ++ toString code ++ " not implemented"⟩)
  else
    (0, some ⟨ErrCode.badValue, "Invalid numerical type code: " ++ toString code⟩)

/-- One Go map insertion aliasToTypeCode[k] = v, on an association list:
overwrite the entry when the key is present, append otherwise. -/
def insertAlias (m : List (String × Int)) (k : String) (v : Int) : List (String × Int) :=
  if m.any (fun kv => kv.1 = k) then
    m.map (fun kv => if kv.1 = k then (k, v) else kv)
  else
    m ++ [(k, v)]

/-- aliasToTypeCode: the map built once by init, inserting i.String() ↦ i for
each implemented or surrogate code, in the loop order of the source. -/
def aliasToTypeCode : List (String × Int) :=
  implementedTypeCodes.foldl (fun m c => insertAlias m (typeCodeString c) c) []

/-- Lookup in aliasToTypeCode, as the Go map index with comma-ok. -/
def lookupAlias (s : String) : Option Int :=
  (aliasToTypeCode.find? (fun kv => kv.1 = s)).map (fun kv => kv.2)

/-! ## Value model

The document value model of internal/types: float64, string, Document, Array,
Binary, ObjectID, bool, time.Time, NullType, Regex, int32, Timestamp, int64.
A float64 is NaN, an infinity, or a finite value, modelled as a rational;
math.Trunc, IEEE equality, math.IsNaN and math.IsInf act on it as in Go.
Array elements are dynamically typed in Go, so a constructor stands for any
runtime value outside the thirteen recognized kinds. -/

/-- A float64 value: NaN, ±infinity, or a finite value modelled as a rational. -/
inductive Float64 where
  | nan
  | inf (neg : Bool)
  | finite (q : ℚ)
deriving DecidableEq, Repr

/-- Truncation toward zero of a rational, as math.Trunc acts on finite values:
the T-division of numerator by denominator. -/
def ratTrunc (q : ℚ) : Int :=
  q.num.tdiv q.den

/-- math.Trunc: NaN and infinities are returned unchanged; finite values are
rounded toward zero. -/
def ftrunc : Float64 → Float64
  | .nan => .nan
  | .inf b => .inf b
  | .finite q => .finite ((ratTrunc q : Int) : ℚ)

/-- IEEE float equality (Go ==): NaN compares unequal to everything, including
itself; infinities compare equal when their signs agree; finite values compare
by value. -/
def feq : Float64 → Float64 → Bool
  | .nan, _ => false
  | _, .nan => false
  | .inf b, .inf c => b = c
  | .inf _, .finite _ => false
  | .finite _, .inf _ => false
  | .finite q, .finite r => q = r

/-- math.IsNaN. -/
def fIsNaN : Float64 → Bool
  | .nan => true
  | _ => false

/-- math.IsInf with sign argument 0: true for either infinity. -/
def fIsInf : Float64 → Bool
  | .inf _ => true
  | _ => false

mutual

/-- A runtime value held by a document field or array element. Payloads follow
internal/types: Document is an ordered field list, Binary and ObjectID carry
bytes, Regex carries pattern and options, Timestamp and time.Time carry a
numeric instant. The other constructor stands for any runtime kind outside the
thirteen recognized ones. -/
inductive Value where
  | document (fields : List Field)
  | array (elems : List Value)
  | float (f : Float64)
  | string (s : String)
  | binary (subtype : Int) (bytes : List Nat)
  | objectID (bytes : List Nat)
  | bool (b : Bool)
  | date (instant : Int)
  | null
  | regex (pattern : String) (options : String)
  | int32 (n : Int)
  | timestamp (t : Int)
  | int64 (n : Int)
  | other
deriving Repr

/-- One field of a document: a key paired with a value. -/
inductive Field where
  | mk (key : String) (val : Value)
deriving Repr

end

/-- The key of a field. -/
def Field.key : Field → String
  | .mk k _ => k

/-- The value of a field. -/
def Field.val : Field → Value
  | .mk _ v => v

/-- The canonical label the float64 case of hasSameTypeElements assigns:
a float that differs from its truncation, is NaN, or is infinite is a double;
a float that could be converted to int is compared as int. -/
def classifyFloat (f : Float64) : String :=
  if !(feq f (ftrunc f)) || fIsNaN f || fIsInf f then sDouble else sInt

/-- The type switch of hasSameTypeElements: the canonical label of one element,
or none for a runtime kind outside the thirteen recognized ones (the default
case of the switch, which makes the whole function return false). -/
def classifyElement : Value → Option String
  | .document _ => some sObject
  | .array _ => some sArray
  | .float f => some (classifyFloat f)
  | .string _ => some sString
  | .binary _ _ => some sBinData
  | .objectID _ => some sObjectId
  | .bool _ => some sBool
  | .date _ => some sDate
  | .null => some sNull
  | .regex _ _ => some sRegex
  | .int32 _ => some sInt
  | .timestamp _ => some sTimestamp
  | .int64 _ => some sInt
  | .other => none

/-- Whether a value's runtime kind is one of the thirteen the switch handles. -/
def Value.isRecognized (v : Value) : Bool :=
  (classifyElement v).isSome

/-- The loop of hasSameTypeElements, with prev the label carried between
iterations (the empty string before the first element is classified). -/
def hasSameTypeLoop : String → List Value → Bool
  | _, [] => true
  | prev, x :: rest =>
    match classifyElement x with
    | none => false
    | some cur =>
      if prev = "" then hasSameTypeLoop cur rest
      else if prev ≠ cur then false
      else hasSameTypeLoop prev rest

/-- hasSameTypeElements: true when all elements of the array share one
canonical label under the numeric-unification rule. -/
def hasSameTypeElements (array : List Value) : Bool :=
  hasSameTypeLoop "" array

/-! ## Predicate model and evaluator

The predicate compiler and evaluator are exercised by the handlers test suite
but their code is not part of this excerpt, so they are modelled from the
specification: the tagged-variant predicate tree, equality with numeric
unification and the array implicit-membership rule, order comparison for
order-compatible labels only, membership, pattern, and the logical
combinators. Regex matching is delegated to an external engine, passed to the
evaluator as a function from pattern, options and subject to a boolean. -/

/-- A comparison operator keyword. -/
inductive CompOp where
  | eq
  | ne
  | gt
  | gte
  | lt
  | lte
deriving DecidableEq, Repr

/-- Modelled from the spec: the Predicate tree of the predicate model, whose
compiler and evaluator are missing from the excerpt. Node kinds: leaf
comparison, membership with in or nin mode, pattern, LogicalAnd, LogicalOr,
LogicalNor, and Negation wrapping exactly one child. -/
inductive Predicate where
  | comparison (path : String) (op : CompOp) (operand : Value)
  | membership (path : String) (negated : Bool) (operands : List Value)
  | pattern (path : String) (pat : String) (options : String)
  | logicalAnd (children : List Predicate)
  | logicalOr (children : List Predicate)
  | logicalNor (children : List Predicate)
  | negation (child : Predicate)
deriving Repr

/-- The numeric value of an operand of the numeric family (int32, int64, or a
finite float64), used for cross-width comparison by mathematical value. -/
def toRat : Value → Option ℚ
  | .int32 n => some ((n : Int) : ℚ)
  | .int64 n => some ((n : Int) : ℚ)
  | .float (.finite q) => some q
  | _ => none

mutual

/-- Modelled from the spec: value equality of the evaluator. Numeric operands
compare by mathematical value across int32, int64 and float64; strings,
booleans, dates, ids and binary compare by exact value; documents compare by
deep structural equality including key order; arrays compare element-wise in
order. Values of order-incompatible kinds are unequal. -/
def valueEq : Value → Value → Bool
  | .document a, .document b => fieldsEq a b
  | .array a, .array b => elemsEq a b
  | .float f, .float g => feq f g
  | .string s, .string t => s = t
  | .binary s a, .binary t b => s = t && a = b
  | .objectID a, .objectID b => a = b
  | .bool a, .bool b => a = b
  | .date a, .date b => a = b
  | .null, .null => true
  | .regex p o, .regex p2 o2 => p = p2 && o = o2
  | .timestamp a, .timestamp b => a = b
  | a, b =>
    match toRat a, toRat b with
    | some x, some y => x = y
    | _, _ => false

/-- Element-wise equality of array contents. -/
def elemsEq : List Value → List Value → Bool
  | [], [] => true
  | x :: xs, y :: ys => valueEq x y && elemsEq xs ys
  | _, _ => false

/-- Field-wise equality of document contents, including key order. -/
def fieldsEq : List Field → List Field → Bool
  | [], [] => true
  | .mk k v :: xs, .mk l w :: ys => k = l && valueEq v w && fieldsEq xs ys
  | _, _ => false

end

/-- Lookup of one key among a document's fields. -/
def findField (fields : List Field) (k : String) : Option Value :=
  (fields.find? (fun f => f.key = k)).map Field.val

/-- Modelled from the spec: dotted field-path resolution. Dotted paths
traverse nested documents; traversal into a non-document value, or through a
missing intermediate key, yields an absent value. -/
def getPath : Value → List String → Option Value
  | v, [] => some v
  | .document fields, k :: rest =>
    match findField fields k with
    | some v => getPath v rest
    | none => none
  | _, _ :: _ => none

/-- Resolution of a field path against a document, splitting on dots. -/
def lookupPath (doc : List Field) (path : String) : Option Value :=
  getPath (.document doc) (path.splitOn ("."))

/-- Three-way comparison of rationals. -/
def ratCompare (x y : ℚ) : Ordering :=
  if x < y then .lt else if x = y then .eq else .gt

/-- Three-way comparison of strings, lexicographic by code point. -/
def strCompare (x y : String) : Ordering :=
  if x < y then .lt else if x = y then .eq else .gt

/-- Three-way comparison of integers. -/
def intCompare (x y : Int) : Ordering :=
  if x < y then .lt else if x = y then .eq else .gt

/-- Modelled from the spec: order comparison, defined only between operands
whose canonical labels are order-compatible. The numeric family compares by
value across widths, strings lexicographically by code point, dates by
instant; any other pair is order-incompatible and yields none. -/
def compareValues (a b : Value) : Option Ordering :=
  match toRat a, toRat b with
  | some x, some y => some (ratCompare x y)
  | _, _ =>
    match a, b with
    | .string s, .string t => some (strCompare s t)
    | .date s, .date t => some (intCompare s t)
    | _, _ => none

/-- Modelled from the spec: equality matching of a field's value against a
literal, including the array implicit-membership rule: when the field holds an
array, the literal also matches if it equals any element. -/
def evalEq (fieldVal operand : Value) : Bool :=
  valueEq fieldVal operand ||
    (match fieldVal with
     | .array elems => elems.any (fun e => valueEq e operand)
     | _ => false)

/-- Modelled from the spec: one comparison leaf. An absent field matches
equality against null, and fails ordering predicates. -/
def evalComparison (op : CompOp) (fv : Option Value) (operand : Value) : Bool :=
  match op with
  | .eq =>
    match fv with
    | some v => evalEq v operand
    | none => valueEq .null operand
  | .ne =>
    match fv with
    | some v => !evalEq v operand
    | none => !valueEq .null operand
  | _ =>
    match fv with
    | none => false
    | some v =>
      match compareValues v operand with
      | none => false
      | some o =>
        match op with
        | .gt => o = .gt
        | .gte => o = .gt || o = .eq
        | .lt => o = .lt
        | .lte => o = .lt || o = .eq
        | _ => false

mutual

/-- Modelled from the spec: the predicate evaluator. A compiled predicate tree
is walked against one document, returning a boolean and never an error:
conjunction of children for LogicalAnd (empty true), disjunction for LogicalOr
(empty false), negation of the disjunction for LogicalNor, and boolean
inversion for Negation. Pattern matching delegates to the external regex
engine rmatch. -/
def evalPred (rmatch : String → String → String → Bool) (doc : List Field) :
    Predicate → Bool
  | .comparison path op operand => evalComparison op (lookupPath doc path) operand
  | .membership path negated operands =>
    let r :=
      match lookupPath doc path with
      | some v => operands.any (fun w => evalEq v w)
      | none => false
    if negated then !r else r
  | .pattern path pat options =>
    match lookupPath doc path with
    | some (.string s) => rmatch pat options s
    | _ => false
  | .logicalAnd children => evalAll rmatch doc children
  | .logicalOr children => evalAny rmatch doc children
  | .logicalNor children => !evalAny rmatch doc children
  | .negation child => !evalPred rmatch doc child

/-- Conjunction of a list of children, left to right; empty is true. -/
def evalAll (rmatch : String → String → String → Bool) (doc : List Field) :
    List Predicate → Bool
  | [] => true
  | p :: ps => evalPred rmatch doc p && evalAll rmatch doc ps

/-- Disjunction of a list of children, left to right; empty is false. -/
def evalAny (rmatch : String → String → String → Bool) (doc : List Field) :
    List Predicate → Bool
  | [] => false
  | p :: ps => evalPred rmatch doc p || evalAny rmatch doc ps

end

/-- Modelled from the spec: the compiler's translation of a nor filter, which
compiles to Negation wrapping LogicalOr of the recursively compiled children. -/
def compileNor (children : List Predicate) : Predicate :=
  .negation (.logicalOr children)

/-- Whether a string contains no uppercase character. -/
def isLowercaseString (s : String) : Bool :=
  s.data.all (fun c => !c.isUpper)

/-! ## Helper lemmas -/

/-- Every canonical label produced by the type switch is a nonempty string. -/
theorem classifyElement_ne_empty (v : Value) (cur : String)
    (h : classifyElement v = some cur) : cur ≠ "" := by
  cases v
  case other => simp [classifyElement] at h
  case float f =>
    simp only [classifyElement, Option.some.injEq] at h
    subst h
    unfold classifyFloat
    split <;> decide
  all_goals
    simp only [classifyElement, Option.some.injEq] at h
  all_goals
    subst h
  all_goals decide

/-- Unfolding of the loop on an element of unrecognized kind. -/
theorem hasSameTypeLoop_cons_none (prev : String) (x : Value) (rest : List Value)
    (hx : classifyElement x = none) : hasSameTypeLoop prev (x :: rest) = false := by
  simp [hasSameTypeLoop, hx]

/-- Unfolding of the loop on an element classified to cur. -/
theorem hasSameTypeLoop_cons_some (prev cur : String) (x : Value) (rest : List Value)
    (hx : classifyElement x = some cur) :
    hasSameTypeLoop prev (x :: rest) =
      if prev = "" then hasSameTypeLoop cur rest
      else if prev ≠ cur then false
      else hasSameTypeLoop prev rest := by
  simp [hasSameTypeLoop, hx]

/-- After the first element fixed the label prev, the loop accepts a suffix
exactly when every element of it classifies to prev. -/
theorem hasSameTypeLoop_spec (xs : List Value) (prev : String) (hprev : prev ≠ "") :
    hasSameTypeLoop prev xs = true ↔ ∀ y ∈ xs, classifyElement y = some prev := by
  induction xs generalizing prev with
  | nil => simp [hasSameTypeLoop]
  | cons x rest ih =>
    cases hx : classifyElement x with
    | none =>
      rw [hasSameTypeLoop_cons_none prev x rest hx]
      simp [hx]
    | some cur =>
      rw [hasSameTypeLoop_cons_some prev cur x rest hx, if_neg hprev]
      by_cases hc : prev = cur
      · subst hc
        simp [hx, ih prev hprev]
      · rw [if_pos hc]
        constructor
        · intro h
          exact absurd h (by simp)
        · intro h
          have hx2 := h x (by simp)
          rw [hx] at hx2
          exact absurd (by simpa using hx2.symm) hc

/-- The loop returns false as soon as the list holds an element of an
unrecognized runtime kind, whatever label was carried so far. -/
theorem hasSameTypeLoop_none (xs : List Value) (prev : String)
    (h : ∃ x ∈ xs, classifyElement x = none) : hasSameTypeLoop prev xs = false := by
  induction xs generalizing prev with
  | nil => simp at h
  | cons x rest ih =>
    obtain ⟨w, hw, hwnone⟩ := h
    rcases List.mem_cons.mp hw with hhead | htail
    · subst hhead
      exact hasSameTypeLoop_cons_none prev w rest hwnone
    · cases hx : classifyElement x with
      | none => exact hasSameTypeLoop_cons_none prev x rest hx
      | some cur =>
        have hrest : ∃ z ∈ rest, classifyElement z = none := ⟨w, htail, hwnone⟩
        rw [hasSameTypeLoop_cons_some prev cur x rest hx]
        by_cases hp : prev = ""
        · simp [hp, ih cur hrest]
        · rw [if_neg hp]
          by_cases hc : prev ≠ cur
          · simp [hc]
          · simp [hc, ih prev hrest]

/-! ## Claim theorems -/

/-- C1: newTypeCode returns each implemented or surrogate code unchanged with
no error; fails with a NotImplemented error naming the numeric code for the
three recognized-but-unsupported codes 19, -1, 127; and fails with a BadValue
error naming the invalid code for every other integer. -/
theorem newTypeCode_classifies (c : Int) :
    (c ∈ implementedTypeCodes → newTypeCode c = (c, none))
    ∧ (c ∈ unimplementedTypeCodes →
        newTypeCode c =
          (0, some ⟨ErrCode.notImplemented, "Type code " ++ toString c ++ " not implemented"⟩)
        ∧ ∃ a b, "Type code " ++ toString c ++ " not implemented" = a ++ toString c ++ b)
    ∧ (c ∉ implementedTypeCodes → c ∉ unimplementedTypeCodes →
        newTypeCode c =
          (0, some ⟨ErrCode.badValue, "Invalid numerical type code: " ++ toString c⟩)
        ∧ ∃ a b, "Invalid numerical type code: " ++ toString c = a ++ toString c ++ b) := by
  refine ⟨?_, ?_, ?_⟩
  · intro h
    simp [newTypeCode, h]
  · intro h
    have h2 : c ∉ implementedTypeCodes := by
      fin_cases h <;> decide
    refine ⟨?_, "Type code ", " not implemented", rfl⟩
    simp [newTypeCode, h, h2]
  · intro h1 h2
    refine ⟨?_, "Invalid numerical type code: ", "", ?_⟩
    · simp [newTypeCode, h1, h2]
    · rw [String.append_empty]

/-- C1 witness: one concrete input through each of the three branches. -/
theorem newTypeCode_classifies_witness :
    newTypeCode 16 = (16, none)
    ∧ newTypeCode 19 =
        (0, some ⟨ErrCode.notImplemented, "Type code 19 not implemented"⟩)
    ∧ newTypeCode 999 =
        (0, some ⟨ErrCode.badValue, "Invalid numerical type code: 999"⟩) :=
  ⟨(newTypeCode_classifies 16).1 (by decide),
   by
     have h := ((newTypeCode_classifies 19).2.1 (by decide)).1
     simpa using h,
   by
     have h := ((newTypeCode_classifies 999).2.2 (by decide) (by decide)).1
     simpa using h⟩

/-- C2: a float classifies as int exactly when it equals its truncation and is
neither NaN nor an infinity, and double otherwise; int32 and int64 values and
integral floats all classify as int. -/
theorem classify_numeric_unification :
    (∀ f : Float64, classifyFloat f = sInt ↔
      (feq f (ftrunc f) = true ∧ fIsNaN f = false ∧ fIsInf f = false))
    ∧ (∀ f : Float64, classifyFloat f = sInt ∨ classifyFloat f = sDouble)
    ∧ (∀ n : Int, classifyElement (.int32 n) = some sInt)
    ∧ (∀ n : Int, classifyElement (.int64 n) = some sInt)
    ∧ (∀ q : ℚ, ((ratTrunc q : Int) : ℚ) = q → classifyFloat (.finite q) = sInt) := by
  refine ⟨?_, ?_, fun n => rfl, fun n => rfl, ?_⟩
  · intro f
    unfold classifyFloat
    cases hcond : (!feq f (ftrunc f) || fIsNaN f || fIsInf f) with
    | true =>
      rw [if_pos rfl]
      simp only [Bool.or_eq_true, Bool.not_eq_eq_eq_not, Bool.not_true] at hcond
      constructor
      · intro habs
        exact absurd habs (by decide)
      · rintro ⟨h1, h2, h3⟩
        rcases hcond with (h | h) | h
        · rw [h1] at h
          exact Bool.noConfusion h
        · rw [h2] at h
          exact Bool.noConfusion h
        · rw [h3] at h
          exact Bool.noConfusion h
    | false =>
      rw [if_neg (by simp [hcond])]
      simp only [Bool.or_eq_false_iff] at hcond
      obtain ⟨⟨hfe, hnan⟩, hinf⟩ := hcond
      cases hb : feq f (ftrunc f) with
      | false =>
        rw [hb] at hfe
        exact absurd hfe (by decide)
      | true => simp [hb, hnan, hinf]
  · intro f
    unfold classifyFloat
    split
    · exact Or.inr rfl
    · exact Or.inl rfl
  · intro q h
    unfold classifyFloat
    rw [if_neg]
    simp only [feq, ftrunc, fIsNaN, fIsInf, h]
    simp

/-- C2 witness: the integral float 5.0 classifies as int. -/
theorem classify_numeric_unification_witness :
    classifyFloat (Float64.finite 5) = sInt :=
  classify_numeric_unification.2.2.2.2 5 (by decide)

/-- C3: hasSameTypeElements is true on the empty array and on any singleton
of recognized kind; on a nonempty array whose first element is of recognized
kind it is true exactly when every later element carries the first element's
canonical label; a mixed int32/int64/integral-float array is homogeneous and
an int32 next to a fractional float is not. -/
theorem hasSameTypeElements_homogeneity :
    hasSameTypeElements [] = true
    ∧ (∀ x : Value, x.isRecognized = true → hasSameTypeElements [x] = true)
    ∧ (∀ (x : Value) (xs : List Value), x.isRecognized = true →
        (hasSameTypeElements (x :: xs) = true ↔
          ∀ y ∈ xs, classifyElement y = classifyElement x))
    ∧ hasSameTypeElements [.int32 1, .int64 2, .float (.finite 3)] = true
    ∧ hasSameTypeElements [.int32 1, .float (.finite (mkRat 3 2))] = false := by
  have hmain : ∀ (x : Value) (xs : List Value), x.isRecognized = true →
      (hasSameTypeElements (x :: xs) = true ↔
        ∀ y ∈ xs, classifyElement y = classifyElement x) := by
    intro x xs hx
    unfold Value.isRecognized at hx
    cases hcl : classifyElement x with
    | none =>
      rw [hcl] at hx
      simp at hx
    | some cur =>
      unfold hasSameTypeElements
      rw [hasSameTypeLoop_cons_some "" cur x xs hcl, if_pos rfl,
        hasSameTypeLoop_spec xs cur (classifyElement_ne_empty x cur hcl)]
  refine ⟨rfl, ?_, hmain, ?_, ?_⟩
  · intro x hx
    exact (hmain x [] hx).mpr (by simp)
  · decide
  · decide

/-- C3 witness: a two-element array of one canonical label is homogeneous. -/
theorem hasSameTypeElements_homogeneity_witness :
    hasSameTypeElements [Value.int32 1, Value.int64 2] = true :=
  (hasSameTypeElements_homogeneity.2.2.1 (Value.int32 1) [Value.int64 2]
    (by decide)).mpr (by decide)

/-- C4: converting a valid code to its alias and looking the alias up returns
the code; every table entry inverts to its code; the code-to-alias mapping is
injective on the valid codes and the table covers them all. -/
theorem alias_roundtrip :
    (∀ c ∈ implementedTypeCodes, lookupAlias (typeCodeString c) = some c)
    ∧ (∀ kv ∈ aliasToTypeCode, typeCodeString kv.2 = kv.1)
    ∧ (implementedTypeCodes.map typeCodeString).Nodup
    ∧ aliasToTypeCode.length = implementedTypeCodes.length := by
  refine ⟨?_, ?_, ?_, ?_⟩ <;> decide

/-- C4 witness: the double code 1 round-trips through its alias. -/
theorem alias_roundtrip_witness : lookupAlias (typeCodeString 1) = some 1 :=
  alias_roundtrip.1 1 (by decide)

/-- C5: negation inverts repeatedly, so a double negation evaluates as the
predicate itself and a triple negation as a single negation, for every regex
engine, document and predicate. -/
theorem eval_double_negation (rmatch : String → String → String → Bool)
    (doc : List Field) (p : Predicate) :
    evalPred rmatch doc (.negation (.negation p)) = evalPred rmatch doc p
    ∧ evalPred rmatch doc (.negation (.negation (.negation p))) =
        evalPred rmatch doc (.negation p) := by
  constructor <;> simp [evalPred]

/-- C6: a nor node evaluates as the negation of the or node over the same
children; the compiler's translation of nor is Negation over LogicalOr, which
evaluates identically; over two children the result is the negated
disjunction of their results. -/
theorem eval_nor_negation_or (rmatch : String → String → String → Bool)
    (doc : List Field) (children : List Predicate) (p q : Predicate) :
    evalPred rmatch doc (.logicalNor children) =
      !evalPred rmatch doc (.logicalOr children)
    ∧ compileNor children = .negation (.logicalOr children)
    ∧ evalPred rmatch doc (compileNor children) =
        evalPred rmatch doc (.logicalNor children)
    ∧ evalPred rmatch doc (.logicalNor [p, q]) =
        !(evalPred rmatch doc p || evalPred rmatch doc q) := by
  refine ⟨rfl, rfl, rfl, ?_⟩
  simp [evalPred, evalAny]

/-- C7 counterexample: the alias of code 7 is objectId, which is a key of the
alias table but is not a lowercase string (it contains an uppercase letter). -/
theorem alias_lowercase_counterexample :
    (7 : Int) ∈ implementedTypeCodes
    ∧ typeCodeString 7 = sObjectId
    ∧ lookupAlias sObjectId = some 7
    ∧ isLowercaseString (typeCodeString 7) = false := by
  refine ⟨?_, ?_, ?_, ?_⟩ <;> decide

/-- Modelled from the spec: the canonical protocol alias of each implemented
or surrogate code, as enumerated by the interface section of the spec: double,
string, object, array, binData, objectId, bool, date, null, regex, int,
timestamp, long, number. -/
def specProtocolAlias (c : Int) : String :=
  if c = 1 then sDouble
  else if c = 2 then sString
  else if c = 3 then sObject
  else if c = 4 then sArray
  else if c = 5 then sBinData
  else if c = 7 then sObjectId
  else if c = 8 then sBool
  else if c = 9 then sDate
  else if c = 10 then sNull
  else if c = 11 then sRegex
  else if c = 16 then sInt
  else if c = 17 then sTimestamp
  else if c = 18 then sLong
  else ""

/-- C7 amended: every alias string produced for an implemented or surrogate
code is the canonical protocol name of its code; all of them are lowercase
except binData and objectId, whose protocol names carry an uppercase letter. -/
theorem alias_protocol_names :
    (∀ c, c ∈ implementedTypeCodes → c ≠ -128 → typeCodeString c = specProtocolAlias c)
    ∧ typeCodeString (-128) = sNumber
    ∧ (∀ c, c ∈ implementedTypeCodes → c ≠ 5 → c ≠ 7 →
        isLowercaseString (typeCodeString c) = true)
    ∧ isLowercaseString sBinData = false
    ∧ isLowercaseString sObjectId = false := by
  refine ⟨?_, ?_, ?_, ?_, ?_⟩ <;> decide

/-- C7 witness: the alias of code 1 is the protocol name double, a lowercase
string. -/
theorem alias_protocol_names_witness :
    typeCodeString 1 = specProtocolAlias 1
    ∧ isLowercaseString (typeCodeString 1) = true :=
  ⟨alias_protocol_names.1 1 (by decide) (by decide),
   alias_protocol_names.2.2.1 1 (by decide) (by decide) (by decide)⟩

/-- C8: an array holding any element of a runtime kind outside the thirteen
recognized ones is reported as non-homogeneous, also when that element is the
only one; no fatal error is involved, the function just returns false. -/
theorem hasSameTypeElements_unrecognized :
    (∀ xs : List Value, (∃ x ∈ xs, x.isRecognized = false) →
      hasSameTypeElements xs = false)
    ∧ hasSameTypeElements [Value.other] = false := by
  constructor
  · intro xs ⟨x, hmem, hrec⟩
    unfold Value.isRecognized at hrec
    apply hasSameTypeLoop_none
    exact ⟨x, hmem, Option.not_isSome_iff_eq_none.mp (by simp [hrec])⟩
  · rfl

/-- C8 witness: an unrecognized element after an int32 yields false. -/
theorem hasSameTypeElements_unrecognized_witness :
    hasSameTypeElements [Value.int32 0, Value.other] = false :=
  hasSameTypeElements_unrecognized.1 [Value.int32 0, Value.other]
    ⟨Value.other, List.Mem.tail _ (List.Mem.head _), rfl⟩

/-- C9: after initialization the alias table holds exactly fourteen entries,
one per implemented or surrogate code in loop order, and the aliases of the
unimplemented codes decimal, minKey and maxKey are absent. -/
theorem aliasToTypeCode_entries :
    aliasToTypeCode =
      [(sDouble, 1), (sString, 2), (sObject, 3), (sArray, 4), (sBinData, 5),
       (sObjectId, 7), (sBool, 8), (sDate, 9), (sNull, 10), (sRegex, 11),
       (sInt, 16), (sTimestamp, 17), (sLong, 18), (sNumber, -128)]
    ∧ aliasToTypeCode.length = 14
    ∧ lookupAlias sDecimal = none
    ∧ lookupAlias sMinKey = none
    ∧ lookupAlias sMaxKey = none := by
  refine ⟨?_, ?_, ?_, ?_, ?_⟩ <;> decide

/-- C10: newTypeCode is a total function whose outcomes are exclusive: either
a valid code echoed back with no error, or the zero code with some error;
never a nonzero code together with an error. -/
theorem newTypeCode_total_exclusive (c : Int) :
    (newTypeCode c = (c, none) ∧ c ∈ implementedTypeCodes)
    ∨ (∃ e : MongoError, newTypeCode c = (0, some e)) := by
  unfold newTypeCode
  split
  · next h => exact Or.inl ⟨rfl, h⟩
  · split
    · exact Or.inr ⟨_, rfl⟩
    · exact Or.inr ⟨_, rfl⟩

end FerretDB
